import Mathlib

/-!
Shallow embedding of `src/servo/css/styles.rs`: the default style policy,
the specified-style record factory, the per-node and subtree auxiliary-data
initializers, the style accessor, and the fork-join recomputation engine.
External collaborator types (colors, units, node kinds, the rule set) are
modelled from the spec's interface contracts; every function below mirrors
the corresponding Rust item of the source file.
-/

namespace Servo

/-- Modelled from the spec: the opaque RGB color value type of util::color;
used only as field contents by this core. -/
structure Color where
  r : Nat
  g : Nat
  b : Nat
deriving DecidableEq

/-- Modelled from the spec: util::color::css_colors::white. -/
def white : Color := ⟨255, 255, 255⟩

/-- Modelled from the spec: the css::values display modes consumed by the
default style policy (inline, block, none). -/
inductive DisplayType where
  | DisplayNone
  | Inline
  | Block
deriving DecidableEq

/-- Modelled from the spec: css::values length units; this core only ever
produces Auto. -/
inductive Unit where
  | Auto
  | Px (n : Nat)
deriving DecidableEq

/-- Modelled from the spec: dom::base element sub-kinds consumed by the
default style policy (generic block container, header/metadata, image,
script, unrecognized). -/
inductive ElementKind where
  | HTMLDivElement
  | HTMLHeadElement
  | HTMLImageElement
  | HTMLScriptElement
  | UnknownElement
deriving DecidableEq

/-- Modelled from the spec: dom::base node kind tags: Text, Element with an
element sub-kind, Comment, Doctype. -/
inductive NodeKind where
  | Text
  | Element (kind : ElementKind)
  | Comment
  | Doctype
deriving DecidableEq

/-- The SpecifiedStyle record of styles.rs: six independently optional
fields; unset (none) is distinct from set-to-default. -/
structure SpecifiedStyle where
  background_color : Option Color
  display_type : Option DisplayType
  font_size : Option Unit
  height : Option Unit
  text_color : Option Color
  width : Option Unit
deriving DecidableEq

/-- Embeds default_color of the DefaultStyleMethods impl: white for Text and
Element nodes; the `fail` arm for any other kind is modelled as none. -/
def NodeKind.default_color : NodeKind → Option Color
  | .Text => some white
  | .Element _ => some white
  | _ => none

/-- Embeds default_display_type of the DefaultStyleMethods impl: Text is
Inline; Element dispatches on the element sub-kind; Comment and Doctype are
DisplayNone. -/
def NodeKind.default_display_type : NodeKind → DisplayType
  | .Text => .Inline
  | .Element e =>
    match e with
    | .HTMLDivElement => .Block
    | .HTMLHeadElement => .DisplayNone
    | .HTMLImageElement => .Inline
    | .HTMLScriptElement => .DisplayNone
    | .UnknownElement => .Inline
  | .Comment => .DisplayNone
  | .Doctype => .DisplayNone

/-- Embeds default_width of the DefaultStyleMethods impl. -/
def NodeKind.default_width (_ : NodeKind) : Unit := .Auto

/-- Embeds default_height of the DefaultStyleMethods impl. -/
def NodeKind.default_height (_ : NodeKind) : Unit := .Auto

/-- Embeds empty_style_for_node_kind: everything unset except the display
type, which is pre-populated from the default style policy. -/
def empty_style_for_node_kind (kind : NodeKind) : SpecifiedStyle :=
  let display_type := kind.default_display_type
  ⟨none, some display_type, none, none, none, none⟩

/-- Modelled from the spec: the downstream render box slot owned by the
layout stage; opaque to this core, carried only for its lifecycle. -/
abbrev RenderBox := Nat

/-- The LayoutData container of layout::base as used by styles.rs: exactly
one specified style plus an optional downstream box slot. -/
structure LayoutData where
  specified_style : SpecifiedStyle
  box : Option RenderBox
deriving DecidableEq

mutual
/-- Modelled from the spec: the external DOM tree. A node carries its kind
tag, its (lazily attached) auxiliary layout data slot, and its children in
the stable iteration order of NTree.each_child. -/
inductive Node where
  | mk (kind : NodeKind) (aux : Option LayoutData) (children : Forest)
/-- Modelled from the spec: a list of sibling nodes in iteration order. -/
inductive Forest where
  | nil
  | cons (child : Node) (rest : Forest)
end

/-- Kind tag of a node. -/
def Node.kind : Node → NodeKind
  | .mk k _ _ => k

/-- Auxiliary-data slot of a node. -/
def Node.aux : Node → Option LayoutData
  | .mk _ a _ => a

/-- Children of a node, in iteration order. -/
def Node.children : Node → Forest
  | .mk _ _ c => c

/-- Modelled from the spec: the tree primitive has_aux. -/
def Node.has_aux (n : Node) : Bool := n.aux.isSome

/-- Embeds initialize_style of the StylePriv impl: if the node has no aux
data, build an empty style for its kind, wrap it with an empty box slot
into a new LayoutData, attach it, and return it as a one-element list;
otherwise do nothing and return the empty list. The pair returned here is
(the tree node after the side effect, the list of created containers). -/
def Node.initialize_style : Node → Node × List LayoutData
  | .mk kind aux children =>
    if aux.isSome then (.mk kind aux children, [])
    else
      let the_layout_data : LayoutData := ⟨empty_style_for_node_kind kind, none⟩
      (.mk kind (some the_layout_data) children, [the_layout_data])

mutual
/-- Embeds initialize_style_for_subtree (and its each_child loop):
initialize the node itself, then each child subtree in iteration order,
appending the created-container lists in that order. -/
def Node.initialize_style_for_subtree : Node → Node × List LayoutData
  | .mk kind aux children =>
    let p := Node.initialize_style (.mk kind aux children)
    let q := Forest.initialize_children children
    (.mk kind p.1.aux q.1, p.2 ++ q.2)
def Forest.initialize_children : Forest → Forest × List LayoutData
  | .nil => (.nil, [])
  | .cons c rest =>
    let a := Node.initialize_style_for_subtree c
    let b := Forest.initialize_children rest
    (.cons a.1 b.1, a.2 ++ b.2)
end

/-- Embeds get_specified_style: fails (none) when the node has no auxiliary
data, otherwise returns a value copy of the stored specified style. -/
def Node.get_specified_style (n : Node) : Option SpecifiedStyle :=
  match n.aux with
  | none => none
  | some d => some d.specified_style

mutual
/-- Spec-side description for the Subtree Initializer's output: the
per-node initializer's result for the root, followed by each child
subtree's results in child-iteration order (pre-order concatenation). -/
def Node.created_preorder : Node → List LayoutData
  | .mk k a cs =>
    (Node.initialize_style (.mk k a cs)).2 ++ Forest.created_preorder_children cs
/-- Spec-side description of the concatenated results of a forest. -/
def Forest.created_preorder_children : Forest → List LayoutData
  | .nil => []
  | .cons c rest =>
    Node.created_preorder c ++ Forest.created_preorder_children rest
end

mutual
/-- Every node of the subtree has auxiliary data attached. -/
def Node.all_have_aux : Node → Prop
  | .mk _ a cs => a.isSome = true ∧ Forest.all_have_aux_children cs
/-- Every node of every subtree of the forest has auxiliary data. -/
def Forest.all_have_aux_children : Forest → Prop
  | .nil => True
  | .cons c rest => Node.all_have_aux c ∧ Forest.all_have_aux_children rest
end

mutual
/-- A freshly built tree: no node has auxiliary data yet. -/
def Node.fresh : Node → Prop
  | .mk _ a cs => a = none ∧ Forest.fresh_children cs
/-- A freshly built forest: no node has auxiliary data yet. -/
def Forest.fresh_children : Forest → Prop
  | .nil => True
  | .cons c rest => Node.fresh c ∧ Forest.fresh_children rest
end

/-- A specified style with only the display field set: every other field
unset, and the display type some value. -/
def only_display_set (s : SpecifiedStyle) : Prop :=
  s.background_color = none ∧ s.font_size = none ∧ s.height = none ∧
  s.text_color = none ∧ s.width = none ∧ ∃ d, s.display_type = some d

mutual
/-- Every node of the subtree answers the style accessor with a style in
which only the display field is set. -/
def Node.styles_only_display : Node → Prop
  | .mk k a cs =>
    (∃ s, Node.get_specified_style (.mk k a cs) = some s ∧ only_display_set s) ∧
    Forest.styles_only_display_children cs
/-- Forest version of Node.styles_only_display. -/
def Forest.styles_only_display_children : Forest → Prop
  | .nil => True
  | .cons c rest =>
    Node.styles_only_display c ∧ Forest.styles_only_display_children rest
end

mutual
/-- Relates a tree to a rewritten copy with the same shape and kinds in
which every node that already had auxiliary data keeps exactly the same
container (same specified style fields, same box slot). -/
def Node.aux_preserved : Node → Node → Prop
  | .mk k a cs, .mk k' a' cs' =>
    k' = k ∧ (∀ d, a = some d → a' = some d) ∧ Forest.aux_preserved_children cs cs'
/-- Forest version of Node.aux_preserved. -/
def Forest.aux_preserved_children : Forest → Forest → Prop
  | .nil, .nil => True
  | .cons c rest, .cons c' rest' =>
    Node.aux_preserved c c' ∧ Forest.aux_preserved_children rest rest'
  | .nil, .cons _ _ => False
  | .cons _ _, .nil => False
end

/-- Runtime control state of one recompute_style_for_subtree call: how many
rule-set handle clones it has made (one per spawned task, in the spawn
loop; the call's own match step uses the original uncloned handle), how
many child tasks it has spawned (the counter i of the spawn loop), how many
acknowledgments it has received from its channel (the drain loop), and
whether, as a spawned task, it has sent its own completion acknowledgment
to its parent's channel. -/
structure Frame where
  cloned : Nat
  spawned : Nat
  acks : Nat
  ackSent : Bool
deriving DecidableEq

mutual
/-- Configuration of one node during a concurrent recomputation: whether
its own match_css_style step has run (writing its fresh computed style),
the control frame of its recompute call when that call has been spawned,
and the configurations of its children. -/
inductive Conf where
  | mk (matched : Bool) (frame : Option Frame) (children : CForest)
/-- Configurations of a list of sibling nodes. -/
inductive CForest where
  | nil
  | cons (c : Conf) (rest : CForest)
end

/-- Whether this node's own match step has run. -/
def Conf.matched : Conf → Bool
  | .mk m _ _ => m

/-- The control frame of this node's recompute call, if spawned. -/
def Conf.frame : Conf → Option Frame
  | .mk _ f _ => f

/-- The child configurations of this node. -/
def Conf.children : Conf → CForest
  | .mk _ _ cs => cs

/-- A freshly spawned call: nothing cloned, spawned, received or sent. -/
def Frame.start : Frame := ⟨0, 0, 0, false⟩

/-- Number of children in a configuration forest. -/
def CForest.length : CForest → Nat
  | .nil => 0
  | .cons _ rest => rest.length + 1

/-- One if this node's call has sent its completion acknowledgment. -/
def Conf.ack_flag : Conf → Nat
  | .mk _ (some f) _ => if f.ackSent then 1 else 0
  | .mk _ none _ => 0

/-- Number of completion acknowledgments sitting on or drained from the
parent's channel: the number of direct children whose spawned task has
signalled completion. -/
def CForest.acks_sent : CForest → Nat
  | .nil => 0
  | .cons c rest => c.ack_flag + rest.acks_sent

/-- Spawn the call for the n-th child: attach a fresh frame to the n-th
configuration, provided that child has not been spawned yet. -/
def CForest.give_frame : CForest → Nat → Option CForest
  | .nil, _ => none
  | .cons c rest, n + 1 => (CForest.give_frame rest n).map (CForest.cons c)
  | .cons c rest, 0 =>
    match c with
    | .mk m none kids => some (.cons (.mk m (some Frame.start) kids) rest)
    | .mk _ (some _) _ => none

mutual
/-- Small-step semantics of recompute_style_for_subtree, one interleaved
step of any running call. A call first spawns one task per child in
iteration order, cloning the rule-set handle once per spawn; then runs its
own match step against the original handle; then drains one acknowledgment
per spawned task from its channel; a spawned task finally signals its
parent. The child rule interleaves steps of the concurrently running
descendant tasks. -/
inductive Step : Conf → Conf → Prop where
  | spawn (f : Frame) (cs cs' : CForest) :
      cs.give_frame f.spawned = some cs' →
      Step (.mk false (some f) cs)
        (.mk false (some ⟨f.cloned + 1, f.spawned + 1, f.acks, f.ackSent⟩) cs')
  | matchSelf (f : Frame) (cs : CForest) :
      f.spawned = cs.length →
      Step (.mk false (some f) cs) (.mk true (some f) cs)
  | recv (f : Frame) (cs : CForest) :
      f.ackSent = false →
      f.acks < cs.acks_sent →
      Step (.mk true (some f) cs)
        (.mk true (some ⟨f.cloned, f.spawned, f.acks + 1, f.ackSent⟩) cs)
  | sendAck (f : Frame) (cs : CForest) :
      f.ackSent = false →
      f.acks = f.spawned →
      Step (.mk true (some f) cs)
        (.mk true (some ⟨f.cloned, f.spawned, f.acks, true⟩) cs)
  | child (m : Bool) (fr : Option Frame) (cs cs' : CForest) :
      StepF cs cs' → Step (.mk m fr cs) (.mk m fr cs')
/-- A step of some configuration in a forest of siblings. -/
inductive StepF : CForest → CForest → Prop where
  | here (c c' : Conf) (rest : CForest) :
      Step c c' → StepF (.cons c rest) (.cons c' rest)
  | there (c : Conf) (rest rest' : CForest) :
      StepF rest rest' → StepF (.cons c rest) (.cons c rest')
end

mutual
/-- Idle configuration of a node: not matched, call not spawned. -/
def Conf.of_node : Node → Conf
  | .mk _ _ cs => .mk false none (CForest.of_forest cs)
/-- Idle configurations of a forest. -/
def CForest.of_forest : Forest → CForest
  | .nil => .nil
  | .cons c rest => .cons (Conf.of_node c) (CForest.of_forest rest)
end

/-- Initial configuration of recompute_style_for_subtree(root): the root
call's frame freshly created, no node matched, no descendant task
running. -/
def recompute_init (n : Node) : Conf :=
  .mk false (some Frame.start) (CForest.of_forest n.children)

/-- The root call has returned: it has run its own match step and its
drain loop has ended, having received one acknowledgment per task it
spawned. -/
def Conf.returned : Conf → Prop
  | .mk m (some f) _ => m = true ∧ f.acks = f.spawned
  | .mk _ none _ => False

mutual
/-- Full fork-join completion of a subtree: every node's own match step
has run, and every node's call cloned the handle exactly once per child,
spawned exactly one task per child, and drained exactly one
acknowledgment per spawned task. -/
def Conf.subtree_joined : Conf → Prop
  | .mk m fr cs =>
    m = true ∧
    (∃ f : Frame, fr = some f ∧ f.cloned = cs.length ∧ f.spawned = cs.length ∧
      f.acks = cs.length) ∧
    CForest.subtree_joined_children cs
/-- Forest version of Conf.subtree_joined. -/
def CForest.subtree_joined_children : CForest → Prop
  | .nil => True
  | .cons c rest => Conf.subtree_joined c ∧ CForest.subtree_joined_children rest
end

mutual
/-- Step invariant of a configuration: an unspawned node is unmatched; a
running call has made exactly one handle clone per spawned task, never
spawns more tasks than it has children, has spawned them all by the time
its own match step runs, never receives more acknowledgments than were
sent, and only signals completion after matching and draining; and the
same holds below. -/
def Conf.inv : Conf → Prop
  | .mk m fr cs =>
    (fr = none → m = false) ∧
    (∀ f : Frame, fr = some f →
      f.cloned = f.spawned ∧
      f.spawned ≤ cs.length ∧
      (m = true → f.spawned = cs.length) ∧
      f.acks ≤ cs.acks_sent ∧
      (f.ackSent = true → m = true ∧ f.acks = f.spawned)) ∧
    CForest.inv_children cs
/-- Forest version of Conf.inv. -/
def CForest.inv_children : CForest → Prop
  | .nil => True
  | .cons c rest => Conf.inv c ∧ CForest.inv_children rest
end

/-- C2: the Default Style Policy's display-mode function returns Inline for
Text nodes; for Element nodes Block for div, DisplayNone for head, Inline
for image, DisplayNone for script, Inline for unrecognized elements; and
DisplayNone for Comment and Doctype nodes. The six Element/other cases
enumerate every constructor of the node-kind tag, so this covers every
node kind. -/
theorem default_display_type_table :
    NodeKind.Text.default_display_type = DisplayType.Inline ∧
    (NodeKind.Element .HTMLDivElement).default_display_type = DisplayType.Block ∧
    (NodeKind.Element .HTMLHeadElement).default_display_type = DisplayType.DisplayNone ∧
    (NodeKind.Element .HTMLImageElement).default_display_type = DisplayType.Inline ∧
    (NodeKind.Element .HTMLScriptElement).default_display_type = DisplayType.DisplayNone ∧
    (NodeKind.Element .UnknownElement).default_display_type = DisplayType.Inline ∧
    NodeKind.Comment.default_display_type = DisplayType.DisplayNone ∧
    NodeKind.Doctype.default_display_type = DisplayType.DisplayNone :=
  ⟨rfl, rfl, rfl, rfl, rfl, rfl, rfl, rfl⟩

/-- C5: for every node kind, empty_style_for_node_kind leaves background
color, font size, height, text color and width unset, and sets the display
type to some of the Default Style Policy display mode for that kind. -/
theorem empty_style_fields (kind : NodeKind) :
    (empty_style_for_node_kind kind).background_color = none ∧
    (empty_style_for_node_kind kind).font_size = none ∧
    (empty_style_for_node_kind kind).height = none ∧
    (empty_style_for_node_kind kind).text_color = none ∧
    (empty_style_for_node_kind kind).width = none ∧
    (empty_style_for_node_kind kind).display_type = some kind.default_display_type :=
  ⟨rfl, rfl, rfl, rfl, rfl, rfl⟩

/-- C7: the Default Style Policy's color function returns white for Text
nodes and for Element nodes of any sub-kind, and fails fatally (modelled as
none) for Comment and Doctype nodes. -/
theorem default_color_table :
    NodeKind.Text.default_color = some white ∧
    (∀ e : ElementKind, (NodeKind.Element e).default_color = some white) ∧
    NodeKind.Comment.default_color = none ∧
    NodeKind.Doctype.default_color = none :=
  ⟨rfl, fun _ => rfl, rfl, rfl⟩

/-- C8: empty_style_for_node_kind is total over all node kinds and never
reaches the fatal color path: it consults only the display-mode default,
producing a well-defined style even for Comment and Doctype nodes, the very
kinds for which requesting a default color fails fatally (none). -/
theorem empty_style_total_avoids_fatal_color :
    (∀ kind : NodeKind,
      empty_style_for_node_kind kind =
        ⟨none, some kind.default_display_type, none, none, none, none⟩) ∧
    NodeKind.Comment.default_color = none ∧
    NodeKind.Doctype.default_color = none :=
  ⟨fun _ => rfl, rfl, rfl⟩

/-- C9: for every node kind the freshly built style leaves width and height
unset (none) rather than Auto, even though the Default Style Policy's width
and height defaults are Auto: those defaults are never consulted by
empty_style_for_node_kind. -/
theorem empty_style_width_height_unset (kind : NodeKind) :
    (empty_style_for_node_kind kind).width = none ∧
    (empty_style_for_node_kind kind).height = none ∧
    kind.default_width = Unit.Auto ∧
    kind.default_height = Unit.Auto :=
  ⟨rfl, rfl, rfl, rfl⟩

theorem initialize_style_noop_of_aux (n : Node) (d : LayoutData)
    (h : n.aux = some d) : n.initialize_style = (n, []) := by
  cases n with
  | mk k a cs =>
    simp only [Node.aux] at h
    simp [Node.initialize_style, h]

mutual
theorem node_init_subtree_all_aux :
    ∀ n : Node, Node.all_have_aux n.initialize_style_for_subtree.1
  | .mk k a cs => by
    have hf := forest_init_children_all_aux cs
    cases a <;>
      simp [Node.initialize_style_for_subtree, Node.initialize_style,
        Node.all_have_aux, Node.aux, hf]
theorem forest_init_children_all_aux :
    ∀ cs : Forest, Forest.all_have_aux_children (Forest.initialize_children cs).1
  | .nil => by simp [Forest.initialize_children, Forest.all_have_aux_children]
  | .cons c rest => by
    have h1 := node_init_subtree_all_aux c
    have h2 := forest_init_children_all_aux rest
    simp [Forest.initialize_children, Forest.all_have_aux_children, h1, h2]
end

mutual
theorem node_init_subtree_of_all_aux :
    ∀ n : Node, Node.all_have_aux n → n.initialize_style_for_subtree = (n, [])
  | .mk k a cs => by
    intro h
    obtain ⟨ha, hcs⟩ := h
    have hf := forest_init_children_of_all_aux cs hcs
    simp [Node.initialize_style_for_subtree, Node.initialize_style,
      Node.aux, ha, hf]
theorem forest_init_children_of_all_aux :
    ∀ cs : Forest, Forest.all_have_aux_children cs →
      Forest.initialize_children cs = (cs, [])
  | .nil => by intro h; simp [Forest.initialize_children]
  | .cons c rest => by
    intro h
    obtain ⟨h1, h2⟩ := h
    have g1 := node_init_subtree_of_all_aux c h1
    have g2 := forest_init_children_of_all_aux rest h2
    simp [Forest.initialize_children, g1, g2]
end

/-- C3: the per-node initializer is idempotent (a node that already has
auxiliary data gets an empty creation list), and consequently a second run
of the Subtree Initializer over the tree produced by a first run changes
nothing and returns the empty creation list. -/
theorem initialize_style_idempotent :
    (∀ (n : Node) (d : LayoutData), n.aux = some d →
      (n.initialize_style).2 = []) ∧
    (∀ n : Node,
      (n.initialize_style_for_subtree).1.initialize_style_for_subtree =
        ((n.initialize_style_for_subtree).1, [])) := by
  constructor
  · intro n d h
    rw [initialize_style_noop_of_aux n d h]
  · intro n
    exact node_init_subtree_of_all_aux _ (node_init_subtree_all_aux n)

/-- Witness for C3 at a concrete two-node tree and a concrete node that
already carries auxiliary data. -/
theorem initialize_style_idempotent_witness :
    ((Node.mk .Text (some ⟨empty_style_for_node_kind .Text, none⟩) .nil).aux
        = some ⟨empty_style_for_node_kind .Text, none⟩ ∧
      ((Node.mk .Text (some ⟨empty_style_for_node_kind .Text, none⟩)
          .nil).initialize_style).2 = []) ∧
    (((Node.mk (.Element .HTMLDivElement) none
        (.cons (.mk .Text none .nil) .nil)).initialize_style_for_subtree).1.initialize_style_for_subtree =
      (((Node.mk (.Element .HTMLDivElement) none
        (.cons (.mk .Text none .nil) .nil)).initialize_style_for_subtree).1, [])) :=
  ⟨⟨rfl, initialize_style_idempotent.1 _ ⟨empty_style_for_node_kind .Text, none⟩ rfl⟩,
    initialize_style_idempotent.2
      (Node.mk (.Element .HTMLDivElement) none (.cons (.mk .Text none .nil) .nil))⟩

mutual
theorem node_init_subtree_list_preorder :
    ∀ n : Node, (n.initialize_style_for_subtree).2 = n.created_preorder
  | .mk k a cs => by
    have hf := forest_init_children_list_preorder cs
    simp [Node.initialize_style_for_subtree, Node.created_preorder, hf]
theorem forest_init_children_list_preorder :
    ∀ cs : Forest,
      (Forest.initialize_children cs).2 = Forest.created_preorder_children cs
  | .nil => by
    simp [Forest.initialize_children, Forest.created_preorder_children]
  | .cons c rest => by
    have g1 := node_init_subtree_list_preorder c
    have g2 := forest_init_children_list_preorder rest
    simp [Forest.initialize_children, Forest.created_preorder_children, g1, g2]
end

/-- C6: the Subtree Initializer works in pre-order: its creation list is
the per-node initializer's result for the root followed by each child
subtree's results, concatenated in child-iteration order. -/
theorem initialize_subtree_preorder :
    ∀ n : Node, (n.initialize_style_for_subtree).2 = n.created_preorder :=
  node_init_subtree_list_preorder

mutual
theorem node_init_fresh_only_display :
    ∀ n : Node, Node.fresh n →
      Node.styles_only_display (n.initialize_style_for_subtree).1
  | .mk k a cs => by
    intro h
    obtain ⟨ha, hcs⟩ := h
    subst ha
    have hf := forest_init_fresh_only_display cs hcs
    refine ⟨⟨empty_style_for_node_kind k, ?_, ?_⟩, ?_⟩
    · simp [Node.initialize_style_for_subtree, Node.initialize_style, Node.aux,
        Node.get_specified_style]
    · exact ⟨rfl, rfl, rfl, rfl, rfl, ⟨k.default_display_type, rfl⟩⟩
    · simpa [Node.initialize_style_for_subtree, Node.initialize_style,
        Node.aux] using hf
theorem forest_init_fresh_only_display :
    ∀ cs : Forest, Forest.fresh_children cs →
      Forest.styles_only_display_children (Forest.initialize_children cs).1
  | .nil => by
    intro h
    simp [Forest.initialize_children, Forest.styles_only_display_children]
  | .cons c rest => by
    intro h
    obtain ⟨h1, h2⟩ := h
    have g1 := node_init_fresh_only_display c h1
    have g2 := forest_init_fresh_only_display rest h2
    simp [Forest.initialize_children, Forest.styles_only_display_children, g1, g2]
end

/-- C4: the style accessor fails (none) exactly when the node has no
auxiliary data; with auxiliary data present it returns the stored specified
style; and on a freshly built tree, immediately after subtree
initialization, every node's accessed style has only the display field
set. -/
theorem get_specified_style_access :
    (∀ n : Node, n.get_specified_style = none ↔ n.aux = none) ∧
    (∀ (n : Node) (d : LayoutData), n.aux = some d →
      n.get_specified_style = some d.specified_style) ∧
    (∀ n : Node, Node.fresh n →
      Node.styles_only_display (n.initialize_style_for_subtree).1) := by
  refine ⟨?_, ?_, ?_⟩
  · intro n
    cases n with
    | mk k a cs => cases a <;> simp [Node.get_specified_style, Node.aux]
  · intro n d h
    cases n with
    | mk k a cs =>
      simp only [Node.aux] at h
      simp [Node.get_specified_style, Node.aux, h]
  · exact fun n h => node_init_fresh_only_display n h

/-- Witness for C4: a concrete node carrying auxiliary data, and a concrete
fresh one-node tree run through initialization. -/
theorem get_specified_style_access_witness :
    ((Node.mk .Doctype (some ⟨empty_style_for_node_kind .Doctype, none⟩) .nil).aux =
        some ⟨empty_style_for_node_kind .Doctype, none⟩ ∧
      (Node.mk .Doctype
          (some ⟨empty_style_for_node_kind .Doctype, none⟩) .nil).get_specified_style =
        some (empty_style_for_node_kind .Doctype)) ∧
    (Node.fresh (Node.mk .Comment none .nil) ∧
      Node.styles_only_display
        ((Node.mk .Comment none .nil).initialize_style_for_subtree).1) :=
  ⟨⟨rfl, get_specified_style_access.2.1 _ ⟨empty_style_for_node_kind .Doctype, none⟩ rfl⟩,
    ⟨⟨rfl, trivial⟩, get_specified_style_access.2.2 _ ⟨rfl, trivial⟩⟩⟩

mutual
theorem node_init_subtree_aux_preserved :
    ∀ n : Node, Node.aux_preserved n (n.initialize_style_for_subtree).1
  | .mk k a cs => by
    have hf := forest_init_children_aux_preserved cs
    cases a with
    | none =>
      simp [Node.initialize_style_for_subtree, Node.initialize_style, Node.aux,
        Node.aux_preserved, hf]
    | some d =>
      simp [Node.initialize_style_for_subtree, Node.initialize_style, Node.aux,
        Node.aux_preserved, hf]
theorem forest_init_children_aux_preserved :
    ∀ cs : Forest, Forest.aux_preserved_children cs (Forest.initialize_children cs).1
  | .nil => by simp [Forest.initialize_children, Forest.aux_preserved_children]
  | .cons c rest => by
    have g1 := node_init_subtree_aux_preserved c
    have g2 := forest_init_children_aux_preserved rest
    simp [Forest.initialize_children, Forest.aux_preserved_children, g1, g2]
end

/-- C10: a node that already has auxiliary data is left entirely alone by
the per-node initializer (the call returns the node unchanged with an empty
creation list), and the Subtree Initializer preserves every existing
container unchanged, box slot included, at every node of the tree. -/
theorem initialize_preserves_existing_aux :
    (∀ (n : Node) (d : LayoutData), n.aux = some d →
      n.initialize_style = (n, [])) ∧
    (∀ n : Node, Node.aux_preserved n (n.initialize_style_for_subtree).1) :=
  ⟨initialize_style_noop_of_aux, node_init_subtree_aux_preserved⟩

/-- Witness for C10: a node with auxiliary data whose box slot holds a
concrete value, and a concrete tree for the subtree part. -/
theorem initialize_preserves_existing_aux_witness :
    ((Node.mk .Text (some ⟨empty_style_for_node_kind .Text, some 7⟩) .nil).aux =
        some ⟨empty_style_for_node_kind .Text, some 7⟩ ∧
      (Node.mk .Text (some ⟨empty_style_for_node_kind .Text, some 7⟩)
          .nil).initialize_style =
        (Node.mk .Text (some ⟨empty_style_for_node_kind .Text, some 7⟩) .nil, [])) ∧
    Node.aux_preserved (Node.mk .Comment none .nil)
      ((Node.mk .Comment none .nil).initialize_style_for_subtree).1 :=
  ⟨⟨rfl, initialize_preserves_existing_aux.1 _ _ rfl⟩,
    initialize_preserves_existing_aux.2 _⟩

theorem stepF_length : ∀ {cs cs' : CForest}, StepF cs cs' → cs'.length = cs.length
  | _, _, .here _ _ _ _ => rfl
  | _, _, .there _ _ _ h => by
    simp [CForest.length, stepF_length h]

mutual
theorem step_ack_flag_mono : ∀ {c c' : Conf}, Step c c' → c.ack_flag ≤ c'.ack_flag
  | _, _, .spawn _ _ _ _ => le_refl _
  | _, _, .matchSelf _ _ _ => le_refl _
  | _, _, .recv _ _ _ _ => le_refl _
  | _, _, .sendAck f cs h1 _ => by
    simp [Conf.ack_flag, h1]
  | _, _, .child m fr cs cs' _ => by
    cases fr <;> simp [Conf.ack_flag]
theorem stepF_acks_sent_mono :
    ∀ {cs cs' : CForest}, StepF cs cs' → cs.acks_sent ≤ cs'.acks_sent
  | _, _, .here c c' rest h => by
    have hm := step_ack_flag_mono h
    simp only [CForest.acks_sent]
    omega
  | _, _, .there c rest rest' h => by
    have hm := stepF_acks_sent_mono h
    simp only [CForest.acks_sent]
    omega
end

theorem give_frame_spec :
    ∀ (cs : CForest) (n : Nat) (cs' : CForest), cs.give_frame n = some cs' →
      n < cs.length ∧ cs'.length = cs.length ∧ cs'.acks_sent = cs.acks_sent ∧
      (CForest.inv_children cs → CForest.inv_children cs')
  | .nil, n, cs', h => by simp [CForest.give_frame] at h
  | .cons (.mk m none kids) rest, 0, cs', h => by
    simp only [CForest.give_frame, Option.some.injEq] at h
    subst h
    refine ⟨Nat.succ_pos _, rfl, ?_, ?_⟩
    · simp [CForest.acks_sent, Conf.ack_flag, Frame.start]
    · intro hinv
      obtain ⟨⟨h0, _, hkids⟩, hrest⟩ := hinv
      have hm : m = false := h0 rfl
      subst hm
      simp only [CForest.inv_children, Conf.inv]
      refine ⟨⟨?_, ?_, hkids⟩, hrest⟩
      · intro hc
        exact nomatch hc
      · intro f hf
        injection hf with hf
        subst hf
        refine ⟨rfl, Nat.zero_le _, ?_, Nat.zero_le _, ?_⟩
        · intro hcontra
          exact nomatch hcontra
        · intro hcontra
          exact nomatch hcontra
  | .cons (.mk m (some f0) kids) rest, 0, cs', h => by
    simp [CForest.give_frame] at h
  | .cons c rest, n + 1, cs', h => by
    simp only [CForest.give_frame] at h
    rw [Option.map_eq_some'] at h
    obtain ⟨rest', h1, h2⟩ := h
    subst h2
    obtain ⟨ih1, ih2, ih3, ih4⟩ := give_frame_spec rest n rest' h1
    refine ⟨?_, ?_, ?_, ?_⟩
    · simp only [CForest.length]
      omega
    · simp only [CForest.length, ih2]
    · simp only [CForest.acks_sent, ih3]
    · intro hinv
      obtain ⟨hc, hrest⟩ := hinv
      exact ⟨hc, ih4 hrest⟩

mutual
theorem step_preserves_inv : ∀ {c c' : Conf}, Step c c' → Conf.inv c → Conf.inv c'
  | _, _, .spawn f cs cs' hgf, hinv => by
    obtain ⟨h0, hfr, hcs⟩ := hinv
    obtain ⟨hcl, hsp, hm, hak, has⟩ := hfr f rfl
    obtain ⟨g1, g2, g3, g4⟩ := give_frame_spec cs f.spawned cs' hgf
    simp only [Conf.inv]
    refine ⟨by simp, ?_, g4 hcs⟩
    intro f' hf'
    injection hf' with hf'
    subst hf'
    refine ⟨?_, ?_, ?_, ?_, ?_⟩ <;> dsimp only
    · omega
    · omega
    · intro hcontra
      exact nomatch hcontra
    · omega
    · intro hsent
      exact nomatch (has hsent).1
  | _, _, .matchSelf f cs hsp, hinv => by
    obtain ⟨h0, hfr, hcs⟩ := hinv
    obtain ⟨hcl, hle, _, hak, has⟩ := hfr f rfl
    simp only [Conf.inv]
    refine ⟨?_, ?_, hcs⟩
    · intro hc
      exact nomatch hc
    · intro f' hf'
      injection hf' with hf'
      subst hf'
      exact ⟨hcl, hle, fun _ => hsp, hak, fun hsent => nomatch (has hsent).1⟩
  | _, _, .recv f cs h1 h2, hinv => by
    obtain ⟨h0, hfr, hcs⟩ := hinv
    obtain ⟨hcl, hle, hm, hak, has⟩ := hfr f rfl
    simp only [Conf.inv]
    refine ⟨?_, ?_, hcs⟩
    · intro hc
      exact nomatch hc
    · intro f' hf'
      injection hf' with hf'
      subst hf'
      refine ⟨?_, ?_, ?_, ?_, ?_⟩ <;> dsimp only
      · exact hcl
      · exact hle
      · intro hmm
        exact hm rfl
      · omega
      · intro hsent
        rw [h1] at hsent
        exact nomatch hsent
  | _, _, .sendAck f cs h1 h2, hinv => by
    obtain ⟨h0, hfr, hcs⟩ := hinv
    obtain ⟨hcl, hle, hm, hak, has⟩ := hfr f rfl
    simp only [Conf.inv]
    refine ⟨?_, ?_, hcs⟩
    · intro hc
      exact nomatch hc
    · intro f' hf'
      injection hf' with hf'
      subst hf'
      refine ⟨?_, ?_, ?_, ?_, ?_⟩ <;> dsimp only
      · exact hcl
      · exact hle
      · intro hmm
        exact hm rfl
      · exact hak
      · intro hsent
        exact ⟨by trivial, h2⟩
  | _, _, .child m fr cs cs' hstep, hinv => by
    obtain ⟨h0, hfr, hcs⟩ := hinv
    simp only [Conf.inv]
    refine ⟨h0, ?_, stepF_preserves_inv hstep hcs⟩
    intro f hf
    obtain ⟨hcl, hle, hm, hak, has⟩ := hfr f hf
    have hlen := stepF_length hstep
    have hmono := stepF_acks_sent_mono hstep
    refine ⟨hcl, ?_, ?_, ?_, has⟩
    · omega
    · intro hmm
      rw [hlen]
      exact hm hmm
    · omega
theorem stepF_preserves_inv :
    ∀ {cs cs' : CForest}, StepF cs cs' → CForest.inv_children cs →
      CForest.inv_children cs'
  | _, _, .here c c' rest h, hinv => by
    obtain ⟨hc, hrest⟩ := hinv
    exact ⟨step_preserves_inv h hc, hrest⟩
  | _, _, .there c rest rest' h, hinv => by
    obtain ⟨hc, hrest⟩ := hinv
    exact ⟨hc, stepF_preserves_inv h hrest⟩
end

theorem ack_flag_le_one : ∀ c : Conf, c.ack_flag ≤ 1
  | .mk _ (some f) _ => by
    simp only [Conf.ack_flag]
    split <;> omega
  | .mk _ none _ => by simp [Conf.ack_flag]

theorem acks_sent_le_length : ∀ cs : CForest, cs.acks_sent ≤ cs.length
  | .nil => le_refl _
  | .cons c rest => by
    have h1 := ack_flag_le_one c
    have h2 := acks_sent_le_length rest
    simp only [CForest.acks_sent, CForest.length]
    omega

theorem ack_flag_one :
    ∀ c : Conf, c.ack_flag = 1 → ∃ f : Frame, c.frame = some f ∧ f.ackSent = true
  | .mk m (some f) cs, h => by
    simp only [Conf.ack_flag] at h
    cases hE : f.ackSent with
    | true => exact ⟨f, rfl, hE⟩
    | false => rw [hE] at h; simp at h
  | .mk m none cs, h => by simp [Conf.ack_flag] at h

mutual
theorem joined_of_inv_returned :
    ∀ c : Conf, Conf.inv c → Conf.returned c → Conf.subtree_joined c
  | .mk m fr cs, hinv, hret => by
    obtain ⟨h0, hfr, hcs⟩ := hinv
    cases fr with
    | none => exact absurd hret (by simp [Conf.returned])
    | some f =>
      obtain ⟨hm, hacks⟩ := hret
      subst hm
      obtain ⟨hcl, hle, hmf, hak, has⟩ := hfr f rfl
      have hsp : f.spawned = cs.length := hmf rfl
      have hlen : cs.acks_sent = cs.length :=
        le_antisymm (acks_sent_le_length cs) (by omega)
      exact ⟨rfl, ⟨f, rfl, by omega, by omega, by omega⟩,
        joined_children cs hcs hlen⟩
theorem joined_children :
    ∀ cs : CForest, CForest.inv_children cs → cs.acks_sent = cs.length →
      CForest.subtree_joined_children cs
  | .nil, _, _ => trivial
  | .cons c rest, hinv, hlen => by
    obtain ⟨hc, hrest⟩ := hinv
    have h1 := ack_flag_le_one c
    have h2 := acks_sent_le_length rest
    simp only [CForest.acks_sent, CForest.length] at hlen
    have hf1 : c.ack_flag = 1 := by omega
    have hr : rest.acks_sent = rest.length := by omega
    obtain ⟨f, hfrm, hsent⟩ := ack_flag_one c hf1
    refine ⟨?_, joined_children rest hrest hr⟩
    cases c with
    | mk mc frc kidsc =>
      simp only [Conf.frame] at hfrm
      subst hfrm
      obtain ⟨hc0, hcfr, hckids⟩ := hc
      obtain ⟨_, _, _, _, hcas⟩ := hcfr f rfl
      obtain ⟨hcm, hca⟩ := hcas hsent
      subst hcm
      exact joined_of_inv_returned _ ⟨hc0, hcfr, hckids⟩ ⟨rfl, hca⟩
end

mutual
theorem of_node_inv : ∀ n : Node, Conf.inv (Conf.of_node n)
  | .mk k a cs => by
    simp only [Conf.of_node, Conf.inv]
    refine ⟨by simp, ?_, of_forest_inv cs⟩
    intro f hf
    exact nomatch hf
theorem of_forest_inv : ∀ cs : Forest, CForest.inv_children (CForest.of_forest cs)
  | .nil => trivial
  | .cons c rest => ⟨of_node_inv c, of_forest_inv rest⟩
end

theorem recompute_init_inv (n : Node) : Conf.inv (recompute_init n) := by
  cases n with
  | mk k a cs =>
    simp only [recompute_init, Node.children, Conf.inv]
    refine ⟨?_, ?_, of_forest_inv cs⟩
    · intro h
      exact nomatch h
    · intro f hf
      injection hf with hf
      subst hf
      refine ⟨rfl, Nat.zero_le _, ?_, Nat.zero_le _, ?_⟩
      · intro h
        exact nomatch h
      · intro h
        exact nomatch h

theorem steps_preserve_inv {c c' : Conf}
    (h : Relation.ReflTransGen Step c c') (hc : Conf.inv c) : Conf.inv c' := by
  induction h with
  | refl => exact hc
  | tail _ hstep ih => exact step_preserves_inv hstep ih

/-- C1: in any interleaved execution of recompute_style_for_subtree
started on a node, when the top-level call returns (its own match step has
run and its receive loop has drained one acknowledgment per spawned task),
then every node of the subtree has run its match step (fresh computed
styles everywhere), and every call in the tree spawned exactly one task
per child of its node, cloned the rule-set handle exactly once per spawned
task (the node's own match step used the original uncloned handle), and
received exactly one acknowledgment per task it spawned. -/
theorem recompute_fork_join (n : Node) (c : Conf)
    (hexec : Relation.ReflTransGen Step (recompute_init n) c)
    (hret : Conf.returned c) : Conf.subtree_joined c :=
  joined_of_inv_returned c (steps_preserve_inv hexec (recompute_init_inv n))
    hret

/-- Witness for C1: a concrete complete execution over a two-node tree (a
div element with one text child): the root spawns its one child task
(cloning the handle once), both match steps run, the child signals, the
root drains the acknowledgment and returns with the whole subtree
matched. -/
theorem recompute_fork_join_witness :
    Relation.ReflTransGen Step
      (recompute_init (Node.mk (.Element .HTMLDivElement) none
        (.cons (.mk .Text none .nil) .nil)))
      (Conf.mk true (some ⟨1, 1, 1, false⟩)
        (.cons (.mk true (some ⟨0, 0, 0, true⟩) .nil) .nil)) ∧
    Conf.returned (Conf.mk true (some ⟨1, 1, 1, false⟩)
      (.cons (.mk true (some ⟨0, 0, 0, true⟩) .nil) .nil)) ∧
    Conf.subtree_joined (Conf.mk true (some ⟨1, 1, 1, false⟩)
      (.cons (.mk true (some ⟨0, 0, 0, true⟩) .nil) .nil)) := by
  have s1 : Step
      (Conf.mk false (some Frame.start) (.cons (.mk false none .nil) .nil))
      (Conf.mk false (some ⟨1, 1, 0, false⟩)
        (.cons (.mk false (some Frame.start) .nil) .nil)) :=
    Step.spawn Frame.start (.cons (.mk false none .nil) .nil)
      (.cons (.mk false (some Frame.start) .nil) .nil) rfl
  have s2 : Step
      (Conf.mk false (some ⟨1, 1, 0, false⟩)
        (.cons (.mk false (some Frame.start) .nil) .nil))
      (Conf.mk true (some ⟨1, 1, 0, false⟩)
        (.cons (.mk false (some Frame.start) .nil) .nil)) :=
    Step.matchSelf ⟨1, 1, 0, false⟩ (.cons (.mk false (some Frame.start) .nil) .nil) rfl
  have s3 : Step
      (Conf.mk true (some ⟨1, 1, 0, false⟩)
        (.cons (.mk false (some Frame.start) .nil) .nil))
      (Conf.mk true (some ⟨1, 1, 0, false⟩)
        (.cons (.mk true (some Frame.start) .nil) .nil)) :=
    Step.child true (some ⟨1, 1, 0, false⟩) _ _
      (StepF.here (.mk false (some Frame.start) .nil)
        (.mk true (some Frame.start) .nil) .nil
        (Step.matchSelf Frame.start .nil rfl))
  have s4 : Step
      (Conf.mk true (some ⟨1, 1, 0, false⟩)
        (.cons (.mk true (some Frame.start) .nil) .nil))
      (Conf.mk true (some ⟨1, 1, 0, false⟩)
        (.cons (.mk true (some ⟨0, 0, 0, true⟩) .nil) .nil)) :=
    Step.child true (some ⟨1, 1, 0, false⟩) _ _
      (StepF.here (.mk true (some Frame.start) .nil)
        (.mk true (some ⟨0, 0, 0, true⟩) .nil) .nil
        (Step.sendAck Frame.start .nil rfl rfl))
  have s5 : Step
      (Conf.mk true (some ⟨1, 1, 0, false⟩)
        (.cons (.mk true (some ⟨0, 0, 0, true⟩) .nil) .nil))
      (Conf.mk true (some ⟨1, 1, 1, false⟩)
        (.cons (.mk true (some ⟨0, 0, 0, true⟩) .nil) .nil)) :=
    Step.recv ⟨1, 1, 0, false⟩
      (.cons (.mk true (some ⟨0, 0, 0, true⟩) .nil) .nil) rfl (by decide)
  have hexec : Relation.ReflTransGen Step
      (recompute_init (Node.mk (.Element .HTMLDivElement) none
        (.cons (.mk .Text none .nil) .nil)))
      (Conf.mk true (some ⟨1, 1, 1, false⟩)
        (.cons (.mk true (some ⟨0, 0, 0, true⟩) .nil) .nil)) :=
    .tail (.tail (.tail (.tail (.single s1) s2) s3) s4) s5
  exact ⟨hexec, ⟨rfl, rfl⟩, recompute_fork_join _ _ hexec ⟨rfl, rfl⟩⟩

end Servo
